import Mathlib

/-!
Formal model of the household-ledger application (`app.py`): the schema
reconciliation pipeline run on load (`load_data`), entry saving
(`save_data`), inline editing (`update_from_editor`), the CSV import of
the data-management tab, and the card-tier evaluator of the monthly
report tab (`main_content`).

Rows are string-keyed association lists of cell values, and a table is a
column list together with its rows, mirroring the pandas `DataFrame`
produced by `get_all_records`.
-/

namespace Ledger

/-- A cell value as read from or stored in the row store: a raw string,
an integer, a parsed calendar date (encoded as `y*10000 + m*100 + d`) or
a parsed time of day (seconds since midnight). -/
inductive Value where
  | vStr (s : String)
  | vInt (n : Int)
  | vDate (d : Nat)
  | vTime (t : Nat)
deriving DecidableEq, Repr

/-- A row: an association list from column name to cell value. -/
abbrev Row := List (String × Value)

/-- Look a column up in a row (first occurrence; missing cells read as the
empty string, matching how absent keys only arise for columns the code
has checked for). -/
def getV : Row → String → Value
  | [], _ => Value.vStr ""
  | (k, v) :: r, c => if k == c then v else getV r c

/-- Does the row carry the given key? -/
def hasKey : Row → String → Bool
  | [], _ => false
  | (k, _) :: r, c => k == c || hasKey r c

/-- Write a cell: replace the first occurrence of the key, or append the
pair at the end when the key is absent (a fresh pandas column is appended
after the existing ones). -/
def setV : Row → String → Value → Row
  | [], c, v => [(c, v)]
  | (k, w) :: r, c, v => if k == c then (c, v) :: r else (k, w) :: setV r c v

/-- A table: the column list of the `DataFrame` plus its rows. -/
structure Table where
  cols : List String
  rows : List Row
deriving DecidableEq, Repr

/-- Column membership test, `col in df.columns`. -/
def Table.hasCol (t : Table) (c : String) : Bool := t.cols.contains c

/-- Column assignment `df[c] = ...`: every row gets the computed value,
and the column name is appended when new. -/
def Table.setCol (t : Table) (c : String) (f : Row → Value) : Table :=
  ⟨if t.cols.contains c then t.cols else t.cols ++ [c],
   t.rows.map (fun r => setV r c (f r))⟩

/-- Column rename, `df.rename(columns={src: dst})`. -/
def Table.renameCol (t : Table) (src dst : String) : Table :=
  ⟨t.cols.map (fun x => if x == src then dst else x),
   t.rows.map (fun r => r.map (fun p => if p.1 == src then (dst, p.2) else p))⟩

/-- Apply a per-row transformation to every row. -/
def Table.mapRows (t : Table) (f : Row → Row) : Table := ⟨t.cols, t.rows.map f⟩

/-- The 11 canonical columns, in the fixed output order of `load_data`. -/
def canonCols : List String :=
  ["날짜", "시간", "타입", "대분류", "소분류", "내용", "금액", "화폐", "결제수단", "메모", "세부구분"]

/-- Migration step 1 of `load_data`: rename the legacy division column
to the kind column only when the kind column is absent. -/
def renameDivision (t : Table) : Table :=
  if t.hasCol "구분" && !(t.hasCol "타입") then t.renameCol "구분" "타입" else t

/-- Migration step 2 of `load_data`: rename the legacy category column
to the big-category column only when the latter is absent. -/
def renameCategory (t : Table) : Table :=
  if t.hasCol "카테고리" && !(t.hasCol "대분류") then t.renameCol "카테고리" "대분류" else t

/-- Python truthiness of a cell value, as used by `x['카드명'] and ...`. -/
def pyTruthy : Value → Bool
  | Value.vStr s => !(s == "")
  | Value.vInt n => !(n == 0)
  | _ => true

/-- The effective payment instrument of a row carrying both a card-name
cell and a payment-method cell (`load_data`, migration step 3). -/
def effInstrument (card method : Value) : Value :=
  if pyTruthy card && !(card == Value.vStr "-") then card else method

/-- Migration step 3 of `load_data`: consolidate the card-name column
into the payment-method column. -/
def mergeCard (t : Table) : Table :=
  if t.hasCol "카드명" then
    if t.hasCol "결제수단" then
      t.setCol "결제수단" (fun r => effInstrument (getV r "카드명") (getV r "결제수단"))
    else
      t.setCol "결제수단" (fun r => getV r "카드명")
  else t

/-- Add a column with a constant value when it is absent. -/
def Table.addDefaultCol (t : Table) (c : String) (v : Value) : Table :=
  if t.hasCol c then t else t.setCol c (fun _ => v)

/-- Migration step 4 of `load_data`: default values for the columns
introduced by newer schema generations. -/
def addDefaults (t : Table) : Table :=
  (((t.addDefaultCol "시간" (Value.vStr "00:00")).addDefaultCol "소분류"
      (Value.vStr "")).addDefaultCol "화폐" (Value.vStr "KRW")).addDefaultCol "세부구분"
    (Value.vStr "-")

/-- Split a character list on a separator (the groups between the
separators, like splitting a string). -/
def splitOnChar (sep : Char) : List Char → List (List Char)
  | [] => [[]]
  | c :: cs =>
    let r := splitOnChar sep cs
    if c = sep then [] :: r
    else
      match r with
      | [] => [[c]]
      | g :: gs => (c :: g) :: gs

/-- The numeric value of a decimal digit character. -/
def digitVal? (c : Char) : Option Nat :=
  if '0' ≤ c ∧ c ≤ '9' then some (c.toNat - '0'.toNat) else none

/-- Accumulate a decimal number over a digit list; any non-digit fails. -/
def digitsToNatAux : List Char → Nat → Option Nat
  | [], acc => some acc
  | c :: cs, acc =>
    match digitVal? c with
    | some d => digitsToNatAux cs (acc * 10 + d)
    | none => none

/-- Parse a non-empty all-digit character list as a natural number. -/
def digitsToNat? : List Char → Option Nat
  | [] => none
  | cs => digitsToNatAux cs 0

/-- Parse an optionally minus-signed decimal integer, as `int(s)` does. -/
def charsToInt? : List Char → Option Int
  | '-' :: cs => (digitsToNat? cs).map (fun n => -(n : Int))
  | cs => (digitsToNat? cs).map (fun n => (n : Int))

/-- Parse a date string of shape `YYYY-MM-DD`, the serialization format
the app itself writes (`save_data_to_sheet`). -/
def parseDateStr (s : String) : Option Nat :=
  match splitOnChar '-' s.data with
  | [y, m, d] =>
    match digitsToNat? y, digitsToNat? m, digitsToNat? d with
    | some yn, some mn, some dn =>
      if 1 ≤ mn ∧ mn ≤ 12 ∧ 1 ≤ dn ∧ dn ≤ 31 then some (yn * 10000 + mn * 100 + dn) else none
    | _, _, _ => none
  | _ => none

/-- Parse a date cell, as `pd.to_datetime` applied to one cell: already
parsed dates pass through, strings are parsed, anything else fails. -/
def parseDateV : Value → Option Value
  | Value.vDate d => some (Value.vDate d)
  | Value.vStr s => (parseDateStr s).map Value.vDate
  | _ => none

/-- Monadic map over rows: the whole batch fails as soon as one row
fails, the way a raising `pd.to_datetime` aborts the column conversion. -/
def mapRowsM (f : Row → Option Row) : List Row → Option (List Row)
  | [] => some []
  | r :: rs =>
    match f r, mapRowsM f rs with
    | some r2, some rs2 => some (r2 :: rs2)
    | _, _ => none

/-- Date conversion of `load_data`: parse every row's date cell; a single
unparsable date fails the whole conversion. -/
def convertDates (t : Table) : Option Table :=
  if t.hasCol "날짜" then
    (mapRowsM (fun r => (parseDateV (getV r "날짜")).map (fun v => setV r "날짜" v)) t.rows).map
      (fun rs => ⟨t.cols, rs⟩)
  else some t

/-- String coercion of one cell, `astype(str)` applied pointwise. -/
def valueToStr : Value → Value
  | Value.vStr s => Value.vStr s
  | Value.vInt n => Value.vStr (toString n)
  | Value.vDate d => Value.vStr (toString d)
  | Value.vTime t => Value.vStr (toString t)

/-- The text columns coerced to strings by `load_data`. -/
def textCols : List String :=
  ["타입", "대분류", "소분류", "내용", "화폐", "결제수단", "메모", "세부구분"]

/-- Text conversion of `load_data`: each present text column is coerced
to strings. -/
def convertText (t : Table) : Table :=
  textCols.foldl
    (fun acc c => if acc.hasCol c then acc.setCol c (fun r => valueToStr (getV r c)) else acc) t

/-- Numeric coercion of one amount cell: `pd.to_numeric(..., errors='coerce')`
followed by `fillna(0).astype(int)` — non-numeric cells become 0. -/
def toNumericV : Value → Value
  | Value.vInt n => Value.vInt n
  | Value.vStr s => Value.vInt ((charsToInt? s.data).getD 0)
  | _ => Value.vInt 0

/-- Amount conversion of `load_data`. -/
def convertAmount (t : Table) : Table :=
  if t.hasCol "금액" then t.setCol "금액" (fun r => toNumericV (getV r "금액")) else t

/-- One step of the required-column fill of `load_data`: a canonical
column still absent is added, with 0 for the amount and the empty string
otherwise. -/
def ensureStep (acc : Table) (c : String) : Table :=
  if acc.hasCol c then acc
  else acc.setCol c (fun _ => if c == "금액" then Value.vInt 0 else Value.vStr "")

/-- Required-column fill of `load_data`, over all canonical columns. -/
def ensureCols (t : Table) : Table := canonCols.foldl ensureStep t

/-- Parse a time string against the two accepted formats, `HH:MM:SS` and
`HH:MM`, defaulting to midnight. -/
def parseTimeStr (s : String) : Nat :=
  match splitOnChar ':' s.data with
  | [h, m, sec] =>
    match digitsToNat? h, digitsToNat? m, digitsToNat? sec with
    | some hn, some mn, some sn =>
      if hn ≤ 23 ∧ mn ≤ 59 ∧ sn ≤ 59 then hn * 3600 + mn * 60 + sn else 0
    | _, _, _ => 0
  | [h, m] =>
    match digitsToNat? h, digitsToNat? m with
    | some hn, some mn => if hn ≤ 23 ∧ mn ≤ 59 then hn * 3600 + mn * 60 else 0
    | _, _ => 0
  | _ => 0

/-- Parse a time cell: a parsed time round-trips through `str` unchanged,
strings are parsed, anything else stringifies to an unparsable shape and
falls back to midnight. -/
def parseTimeV : Value → Value
  | Value.vTime t => Value.vTime t
  | Value.vStr s => Value.vTime (parseTimeStr s)
  | _ => Value.vTime 0

/-- Time conversion of `load_data`. -/
def convertTime (t : Table) : Table :=
  if t.hasCol "시간" then t.setCol "시간" (fun r => parseTimeV (getV r "시간")) else t

/-- Is the cell a strictly positive amount, `df['금액'] > 0` pointwise? -/
def amountPos : Value → Bool
  | Value.vInt n => decide (0 < n)
  | _ => false

/-- Negate an integer cell. -/
def negAmount : Value → Value
  | Value.vInt n => Value.vInt (-n)
  | v => v

/-- Migration step 5 of `load_data`: every expense row with a strictly
positive amount has its amount negated. -/
def signNormalize (t : Table) : Table :=
  if t.hasCol "타입" && t.hasCol "금액" then
    t.mapRows (fun r =>
      if getV r "타입" == Value.vStr "지출" && amountPos (getV r "금액") then
        setV r "금액" (negAmount (getV r "금액"))
      else r)
  else t

/-- Project a row onto the canonical columns, in canonical order. -/
def projectRow (r : Row) : Row := canonCols.map (fun c => (c, getV r c))

/-- Final column selection of `load_data`, `df[columns]`. -/
def selectCanon (t : Table) : Table := ⟨canonCols, t.rows.map projectRow⟩

/-- The migration prefix of `load_data` that runs before date parsing:
renames, instrument consolidation, defaults. -/
def migrateRaw (t : Table) : Table :=
  addDefaults (mergeCard (renameCategory (renameDivision t)))

/-- The full reconciliation pipeline of `load_data`; `none` models the
raised exception of an unparsable date. -/
def reconcile (t : Table) : Option Table :=
  (convertDates (migrateRaw t)).map
    (fun u => selectCanon (signNormalize (convertTime (ensureCols (convertAmount (convertText u))))))

/-- The empty canonical table, `pd.DataFrame(columns=columns)`. -/
def emptyTable : Table := ⟨canonCols, []⟩

/-- `load_data` on a raw row set: the reconciled table, or — when the
pipeline raises — a warning and the empty table (local mode). -/
def loadData (t : Table) : Table := (reconcile t).getD emptyTable

/-- The new entry row built by `save_data`: the amount of a positive
expense is negated before storing. -/
def newEntryRow (dday : Nat) (timeStr typeVal subDiv bigCat smallCat content : String)
    (amount : Int) (currency method memo : String) : Row :=
  let fAmt := if typeVal == "지출" && decide (0 < amount) then -amount else amount
  [("날짜", Value.vDate dday), ("시간", Value.vStr timeStr), ("타입", Value.vStr typeVal),
   ("세부구분", Value.vStr subDiv), ("대분류", Value.vStr bigCat), ("소분류", Value.vStr smallCat),
   ("내용", Value.vStr content), ("금액", Value.vInt fAmt), ("화폐", Value.vStr currency),
   ("결제수단", Value.vStr method), ("메모", Value.vStr memo)]

/-- `save_data`: append the one new entry to the stored table. -/
def saveData (data : Table) (dday : Nat) (timeStr typeVal subDiv bigCat smallCat content : String)
    (amount : Int) (currency method memo : String) : Table :=
  ⟨data.cols,
   data.rows ++ [newEntryRow dday timeStr typeVal subDiv bigCat smallCat content amount
     currency method memo]⟩

/-- One cell assignment of `update_from_editor`: the edited value is
written back verbatim, except that a date cell is first re-parsed. -/
def updateCell (rows : List Row) (idx : Nat) (c : String) (v : Value) : Option (List Row) :=
  (if c == "날짜" then parseDateV v else some v).map
    (fun w =>
      match rows.get? idx with
      | some r => rows.set idx (setV r c w)
      | none => rows)

/-- `update_from_editor`: the edited cells are copied into the stored
table one by one. -/
def updateFromEditor : List Row → List (Nat × String × Value) → Option (List Row)
  | rows, [] => some rows
  | rows, e :: es =>
    match updateCell rows e.1 e.2.1 e.2.2 with
    | some rows2 => updateFromEditor rows2 es
    | none => none

/-- The required-column list of the CSV import (`main_content`, tab 4). -/
def requiredColumns : List String :=
  ["날짜", "시간", "타입", "대분류", "소분류", "내용", "금액", "화폐", "결제수단", "메모", "세부구분"]

/-- CSV import validation: every required column must appear among the
uploaded columns. -/
def acceptCsv (cols : List String) : Bool := requiredColumns.all (fun c => cols.contains c)

/-- CSV import, append mode: on an accepted upload the rows are date
converted and concatenated after the stored rows; a rejected upload
leaves the data untouched. -/
def csvImportAppend (data upload : Table) : Option Table :=
  if acceptCsv upload.cols then
    (convertDates upload).map (fun u => ⟨data.cols, data.rows ++ u.rows⟩)
  else some data

/-- CSV import, replace mode: an accepted upload replaces the stored
table wholesale; a rejected upload leaves the data untouched. -/
def csvImportReplace (data upload : Table) : Option Table :=
  if acceptCsv upload.cols then convertDates upload else some data

/-- The integer amount stored in a row. -/
def amtOf (r : Row) : Int :=
  match getV r "금액" with
  | Value.vInt n => n
  | _ => 0

/-- The sign invariant of one stored row: an expense amount is
non-positive, an income or saving amount is non-negative. -/
def rowSignOk (r : Row) : Bool :=
  (!(getV r "타입" == Value.vStr "지출") || decide (amtOf r ≤ 0)) &&
  (!(getV r "타입" == Value.vStr "수입" || getV r "타입" == Value.vStr "저축") ||
    decide (0 ≤ amtOf r))

/-- The sign invariant of a stored table. -/
def tableSignOk (t : Table) : Bool := t.rows.all rowSignOk

/-- Shape tests for cell values. -/
def isStrV : Value → Bool
  | Value.vStr _ => true
  | _ => false

/-- Is the cell an integer? -/
def isIntV : Value → Bool
  | Value.vInt _ => true
  | _ => false

/-- Is the cell a parsed date? -/
def isDateV : Value → Bool
  | Value.vDate _ => true
  | _ => false

/-- Is the cell a parsed time? -/
def isTimeV : Value → Bool
  | Value.vTime _ => true
  | _ => false

/-- A row in canonical form: exactly the canonical keys in canonical
order, a parsed date and time, an integer amount, string text cells, and
a non-positive amount on an expense row. -/
def isCanonicalRow (r : Row) : Bool :=
  r.map Prod.fst == canonCols &&
  isDateV (getV r "날짜") && isTimeV (getV r "시간") && isIntV (getV r "금액") &&
  textCols.all (fun c => isStrV (getV r c)) &&
  (!(getV r "타입" == Value.vStr "지출") || decide (amtOf r ≤ 0))

/-- A table in canonical form. -/
def isCanonicalTable (t : Table) : Bool :=
  t.cols == canonCols && t.rows.all isCanonicalRow

/-- A spending tier of a registered card: threshold and benefit. -/
structure Tier where
  limit : Int
  benefit : String
deriving DecidableEq, Repr

/-- Ordering of tiers by threshold, the sort key of `sorted(tiers, key=...)`. -/
def tierLe (a b : Tier) : Prop := a.limit ≤ b.limit

instance : DecidableRel tierLe := fun a b => Int.decLe a.limit b.limit

instance : IsTotal Tier tierLe := ⟨fun a b => Int.le_total a.limit b.limit⟩

instance : IsTrans Tier tierLe := ⟨fun _ _ _ h1 h2 => Int.le_trans h1 h2⟩

/-- Stable ascending sort of a card's tiers by threshold. -/
def sortTiers (tiers : List Tier) : List Tier := tiers.insertionSort tierLe

/-- The displayed state of one tier: threshold, benefit, whether it was
reached, and the remaining amount `limit - current_amount`. -/
structure TierState where
  limit : Int
  benefit : String
  achieved : Bool
  remaining : Int
deriving DecidableEq, Repr

/-- Per-tier evaluation of the card dashboard: ascending by threshold,
`is_reached = current_amount >= limit`, `diff = limit - current_amount`. -/
def evalTiers (spend : Int) (tiers : List Tier) : List TierState :=
  (sortTiers tiers).map (fun t => ⟨t.limit, t.benefit, decide (t.limit ≤ spend), t.limit - spend⟩)

/-- The highest threshold used for the progress bar: last element of the
ascending sort, defaulting to 1,000,000 for a card without tiers. -/
def maxLimit (tiers : List Tier) : Int :=
  match (sortTiers tiers).getLast? with
  | some t => t.limit
  | none => 1000000

/-- The progress value of the card dashboard:
`min(current_amount / max_limit, 1.0) if max_limit > 0 else 0`. -/
def progressRate (spend : Int) (tiers : List Tier) : ℚ :=
  if 0 < maxLimit tiers then min ((spend : ℚ) / (maxLimit tiers : ℚ)) 1 else 0

/-- The largest tier threshold named by the specification, written
independently of the sort: a plain maximum over the tier list, with the
same 1,000,000 default for a card without tiers. -/
def largestLimit : List Tier → Int
  | [] => 1000000
  | t :: ts => ts.foldl (fun a b => max a b.limit) t.limit

/-- A card's current spend in the dashboard: the signed amounts of the
month's rows whose payment instrument equals the card name are summed,
and the absolute value is taken. -/
def cardSpend (rows : List Row) (name : String) : Int :=
  |(rows.filter (fun r => getV r "결제수단" == Value.vStr name)).foldl (fun a r => a + amtOf r) 0|

/-- The dashboard entry reported for one registered card. -/
structure CardReport where
  name : String
  spend : Int
  rate : ℚ
  tierStates : List TierState
deriving DecidableEq, Repr

/-- The card dashboard: one report per registered card, in registration
order, including cards with no matching rows. -/
def evalCards (rows : List Row) (cards : List (String × List Tier)) : List CardReport :=
  cards.map (fun p =>
    ⟨p.1, cardSpend rows p.1, progressRate (cardSpend rows p.1) p.2,
      evalTiers (cardSpend rows p.1) p.2⟩)

/-- The tier list built by the card registration form: each of the two
tiers is kept only when its threshold is strictly positive. -/
def buildTiers (limit1 : Int) (benefit1 : String) (limit2 : Int) (benefit2 : String) : List Tier :=
  (if 0 < limit1 then [⟨limit1, benefit1⟩] else []) ++
    (if 0 < limit2 then [⟨limit2, benefit2⟩] else [])

/-- Claim-side acceptance predicate of the CSV import as worded by the
specification: the uploaded columns are exactly the 11 canonical column
names, in any order. -/
def exactlyCanonCols (cols : List String) : Bool :=
  canonCols.all (fun c => cols.contains c) && cols.all (fun c => canonCols.contains c)

/-! Concrete rows and tables used to instantiate the theorems. -/

/-- A stored row in canonical form: a 15000-KRW expense paid with "Card A". -/
def sampleRow : Row :=
  [("날짜", Value.vDate 20250105), ("시간", Value.vTime 0), ("타입", Value.vStr "지출"),
   ("대분류", Value.vStr "식비"), ("소분류", Value.vStr ""), ("내용", Value.vStr "lunch"),
   ("금액", Value.vInt (-15000)), ("화폐", Value.vStr "KRW"), ("결제수단", Value.vStr "Card A"),
   ("메모", Value.vStr ""), ("세부구분", Value.vStr "비고정지출")]

/-- A one-row stored table in canonical form. -/
def sampleTable : Table := ⟨canonCols, [sampleRow]⟩

/-- An uploaded CSV table with the canonical columns whose single row is
an expense recorded with a positive amount. -/
def uploadPosExpense : Table :=
  ⟨canonCols,
   [[("날짜", Value.vStr "2025-01-05"), ("시간", Value.vStr "00:00"), ("타입", Value.vStr "지출"),
     ("대분류", Value.vStr "식비"), ("소분류", Value.vStr ""), ("내용", Value.vStr "lunch"),
     ("금액", Value.vInt 15000), ("화폐", Value.vStr "KRW"), ("결제수단", Value.vStr "현금"),
     ("메모", Value.vStr ""), ("세부구분", Value.vStr "-")]]⟩

/-- A raw table with one parseable date and one unparsable date. -/
def mixedDates : Table :=
  ⟨["날짜", "타입", "금액", "내용"],
   [[("날짜", Value.vStr "2025-01-05"), ("타입", Value.vStr "지출"),
     ("금액", Value.vInt 100), ("내용", Value.vStr "ok")],
    [("날짜", Value.vStr "invalid"), ("타입", Value.vStr "지출"),
     ("금액", Value.vInt 200), ("내용", Value.vStr "bad")]]⟩

/-- A raw table carrying both a card-name column and a payment-method
column, with the two rows of the specification's consolidation example. -/
def cardMethodTable : Table :=
  ⟨["결제수단", "카드명"],
   [[("결제수단", Value.vStr "Credit Card"), ("카드명", Value.vStr "Card A")],
    [("결제수단", Value.vStr "Cash"), ("카드명", Value.vStr "-")]]⟩

/-- A raw table carrying a card-name column but no payment-method column,
with a sentinel card name and an empty card name. -/
def cardOnlyTable : Table :=
  ⟨["카드명", "내용"],
   [[("카드명", Value.vStr "-"), ("내용", Value.vStr "a")],
    [("카드명", Value.vStr ""), ("내용", Value.vStr "b")]]⟩

/-- A raw table populating a legacy field and its current replacement at
the same time, for both renamed pairs. -/
def legacyBothTable : Table :=
  ⟨["구분", "타입", "카테고리", "대분류"],
   [[("구분", Value.vStr "지출"), ("타입", Value.vStr "수입"),
     ("카테고리", Value.vStr "구세대"), ("대분류", Value.vStr "신세대")]]⟩

/-- An upload column list carrying the 11 canonical columns plus an extra
column. -/
def extraCols : List String := canonCols ++ ["환율"]

end Ledger

namespace Ledger

/-! Basic lemmas about row access and update. -/

theorem getV_setV_self (r : Row) (c : String) (v : Value) : getV (setV r c v) c = v := by
  induction r with
  | nil => simp [setV, getV]
  | cons p r ih =>
    obtain ⟨k, w⟩ := p
    by_cases h : k = c
    · simp [setV, getV, h]
    · simp [setV, getV, h, ih]

theorem getV_setV_ne (r : Row) (c c2 : String) (v : Value) (h : c ≠ c2) :
    getV (setV r c v) c2 = getV r c2 := by
  induction r with
  | nil => simp [setV, getV, h]
  | cons p r ih =>
    obtain ⟨k, w⟩ := p
    by_cases hk : k = c
    · subst hk
      simp [setV, getV, h]
    · simp [setV, getV, hk, ih]

theorem setV_getV_self (r : Row) (c : String) (h : hasKey r c = true) :
    setV r c (getV r c) = r := by
  induction r with
  | nil => simp [hasKey] at h
  | cons p r ih =>
    obtain ⟨k, w⟩ := p
    by_cases hk : k = c
    · subst hk
      simp [setV, getV]
    · simp [hasKey, hk] at h
      simp [setV, getV, hk, ih h]

theorem hasKey_iff_mem (r : Row) (c : String) :
    hasKey r c = true ↔ c ∈ r.map Prod.fst := by
  induction r with
  | nil => simp [hasKey]
  | cons p r ih =>
    obtain ⟨k, w⟩ := p
    by_cases hk : k = c
    · simp [hasKey, hk]
    · simp [hasKey, hk, ih, Ne.symm hk]

theorem getV_keyed_map (cs : List String) (f : String → Value) (c : String) (h : c ∈ cs) :
    getV (cs.map (fun x => (x, f x))) c = f c := by
  induction cs with
  | nil => simp at h
  | cons k cs ih =>
    by_cases hk : k = c
    · simp [getV, hk]
    · rcases List.mem_cons.mp h with h2 | h2
      · exact absurd h2.symm hk
      · simp [getV, hk, ih h2]

theorem keyed_map_eq_self (r : Row) (cs : List String) (hk : r.map Prod.fst = cs)
    (hd : cs.Nodup) : cs.map (fun c => (c, getV r c)) = r := by
  induction r generalizing cs with
  | nil =>
    rw [List.map_nil] at hk
    subst hk
    rfl
  | cons p r ih =>
    obtain ⟨k, w⟩ := p
    rw [List.map_cons] at hk
    subst hk
    rw [List.nodup_cons] at hd
    obtain ⟨hk1, hd2⟩ := hd
    rw [List.map_cons]
    have h1 : getV ((k, w) :: r) k = w := by simp [getV]
    have h2 : (r.map Prod.fst).map (fun c => (c, getV ((k, w) :: r) c)) =
        (r.map Prod.fst).map (fun c => (c, getV r c)) := by
      apply List.map_congr_left
      intro c hc
      have hne : ¬(k = c) := fun he => hk1 (he ▸ hc)
      simp [getV, hne]
    rw [h1, h2, ih (r.map Prod.fst) rfl hd2]

end Ledger

namespace Ledger

/-! Table-level lemmas. -/

theorem contains_iff_mem (l : List String) (c : String) : l.contains c = true ↔ c ∈ l := by
  simp [List.contains]

theorem hasCol_setCol_mono (t : Table) (c c2 : String) (f : Row → Value)
    (h : t.hasCol c2 = true) : (t.setCol c f).hasCol c2 = true := by
  unfold Table.hasCol Table.setCol at *
  by_cases hc : t.cols.contains c = true
  · rw [if_pos hc]
    exact h
  · rw [if_neg hc]
    rw [contains_iff_mem] at h ⊢
    exact List.mem_append_left _ h

theorem hasCol_setCol_self (t : Table) (c : String) (f : Row → Value) :
    (t.setCol c f).hasCol c = true := by
  unfold Table.hasCol Table.setCol
  by_cases hc : t.cols.contains c = true
  · rw [if_pos hc]
    exact hc
  · rw [if_neg hc]
    rw [contains_iff_mem]
    exact List.mem_append_right _ (by simp)

theorem setCol_id (t : Table) (c : String) (f : Row → Value) (h : t.hasCol c = true)
    (hr : ∀ r ∈ t.rows, setV r c (f r) = r) : t.setCol c f = t := by
  unfold Table.setCol
  unfold Table.hasCol at h
  rw [if_pos h]
  have hrows : t.rows.map (fun r => setV r c (f r)) = t.rows :=
    (List.map_congr_left hr).trans (List.map_id t.rows)
  rw [hrows]

theorem setCol_rows_length (t : Table) (c : String) (f : Row → Value) :
    (t.setCol c f).rows.length = t.rows.length := by
  unfold Table.setCol
  simp

theorem foldl_fixed {β : Type} (step : Table → β → Table) (t : Table) (cs : List β)
    (h : ∀ c ∈ cs, step t c = t) : cs.foldl step t = t := by
  induction cs with
  | nil => rfl
  | cons c cs ih =>
    rw [List.foldl_cons, h c (List.mem_cons_self c cs)]
    exact ih (fun d hd => h d (List.mem_cons_of_mem c hd))

theorem foldl_rows_length {β : Type} (step : Table → β → Table) (cs : List β)
    (h : ∀ u c, (step u c).rows.length = u.rows.length) :
    ∀ t : Table, (cs.foldl step t).rows.length = t.rows.length := by
  induction cs with
  | nil => intro t; rfl
  | cons c cs ih =>
    intro t
    rw [List.foldl_cons, ih (step t c), h]

theorem mapRowsM_id (f : Row → Option Row) (l : List Row) (h : ∀ r ∈ l, f r = some r) :
    mapRowsM f l = some l := by
  induction l with
  | nil => rfl
  | cons r rs ih =>
    unfold mapRowsM
    rw [h r (List.mem_cons_self r rs), ih (fun r2 h2 => h r2 (List.mem_cons_of_mem r h2))]

theorem mapRowsM_length (f : Row → Option Row) (l l2 : List Row) (h : mapRowsM f l = some l2) :
    l2.length = l.length := by
  induction l generalizing l2 with
  | nil =>
    unfold mapRowsM at h
    cases h
    rfl
  | cons r rs ih =>
    unfold mapRowsM at h
    cases hf : f r with
    | none => rw [hf] at h; cases h
    | some r2 =>
      rw [hf] at h
      cases hm : mapRowsM f rs with
      | none => rw [hm] at h; cases h
      | some rs2 =>
        rw [hm] at h
        cases h
        simp [ih rs2 hm]

theorem canonCols_nodup : canonCols.Nodup := by decide

end Ledger

namespace Ledger

/-! Shape lemmas for cell values. -/

theorem isDateV_spec (v : Value) (h : isDateV v = true) : ∃ d, v = Value.vDate d := by
  cases v with
  | vDate d => exact ⟨d, rfl⟩
  | vStr s => simp [isDateV] at h
  | vInt n => simp [isDateV] at h
  | vTime t => simp [isDateV] at h

theorem isTimeV_spec (v : Value) (h : isTimeV v = true) : ∃ t, v = Value.vTime t := by
  cases v with
  | vTime t => exact ⟨t, rfl⟩
  | vStr s => simp [isTimeV] at h
  | vInt n => simp [isTimeV] at h
  | vDate d => simp [isTimeV] at h

theorem isIntV_spec (v : Value) (h : isIntV v = true) : ∃ n, v = Value.vInt n := by
  cases v with
  | vInt n => exact ⟨n, rfl⟩
  | vStr s => simp [isIntV] at h
  | vDate d => simp [isIntV] at h
  | vTime t => simp [isIntV] at h

theorem isStrV_spec (v : Value) (h : isStrV v = true) : ∃ s, v = Value.vStr s := by
  cases v with
  | vStr s => exact ⟨s, rfl⟩
  | vInt n => simp [isStrV] at h
  | vDate d => simp [isStrV] at h
  | vTime t => simp [isStrV] at h

theorem amountPos_spec (v : Value) (h : amountPos v = true) : ∃ n, v = Value.vInt n ∧ 0 < n := by
  cases v with
  | vInt n =>
    refine ⟨n, rfl, ?_⟩
    simpa [amountPos] using h
  | vStr s => simp [amountPos] at h
  | vDate d => simp [amountPos] at h
  | vTime t => simp [amountPos] at h

/-! Destructuring of the canonical-form predicates. -/

theorem canonicalRow_keys (r : Row) (h : isCanonicalRow r = true) :
    r.map Prod.fst = canonCols := by
  unfold isCanonicalRow at h
  simp only [Bool.and_eq_true, beq_iff_eq] at h
  exact h.1.1.1.1.1

theorem canonicalRow_hasKey (r : Row) (h : isCanonicalRow r = true) (c : String)
    (hc : c ∈ canonCols) : hasKey r c = true := by
  rw [hasKey_iff_mem, canonicalRow_keys r h]
  exact hc

theorem canonicalRow_date (r : Row) (h : isCanonicalRow r = true) :
    ∃ d, getV r "날짜" = Value.vDate d := by
  unfold isCanonicalRow at h
  simp only [Bool.and_eq_true] at h
  exact isDateV_spec _ h.1.1.1.1.2

theorem canonicalRow_time (r : Row) (h : isCanonicalRow r = true) :
    ∃ t, getV r "시간" = Value.vTime t := by
  unfold isCanonicalRow at h
  simp only [Bool.and_eq_true] at h
  exact isTimeV_spec _ h.1.1.1.2

theorem canonicalRow_amount (r : Row) (h : isCanonicalRow r = true) :
    ∃ n, getV r "금액" = Value.vInt n := by
  unfold isCanonicalRow at h
  simp only [Bool.and_eq_true] at h
  exact isIntV_spec _ h.1.1.2

theorem canonicalRow_text (r : Row) (h : isCanonicalRow r = true) (c : String)
    (hc : c ∈ textCols) : ∃ s, getV r c = Value.vStr s := by
  unfold isCanonicalRow at h
  simp only [Bool.and_eq_true, List.all_eq_true] at h
  exact isStrV_spec _ (h.1.2 c hc)

theorem canonicalRow_sign (r : Row) (h : isCanonicalRow r = true)
    (ht : getV r "타입" = Value.vStr "지출") : amtOf r ≤ 0 := by
  unfold isCanonicalRow at h
  simp only [Bool.and_eq_true] at h
  have h6 := h.2
  rw [ht] at h6
  simpa using h6

theorem canonicalTable_cols (t : Table) (h : isCanonicalTable t = true) :
    t.cols = canonCols := by
  unfold isCanonicalTable at h
  simp only [Bool.and_eq_true, beq_iff_eq] at h
  exact h.1

theorem canonicalTable_rows (t : Table) (h : isCanonicalTable t = true) :
    ∀ r ∈ t.rows, isCanonicalRow r = true := by
  unfold isCanonicalTable at h
  simp only [Bool.and_eq_true, List.all_eq_true] at h
  exact h.2

theorem canonicalTable_hasCol (t : Table) (h : isCanonicalTable t = true) (c : String)
    (hc : c ∈ canonCols) : t.hasCol c = true := by
  unfold Table.hasCol
  rw [canonicalTable_cols t h, contains_iff_mem]
  exact hc

end Ledger

namespace Ledger

/-! Identity of each pipeline step on a table already in canonical form. -/

theorem renameDivision_canonical (t : Table) (hc : t.cols = canonCols) :
    renameDivision t = t := by
  have h1 : t.hasCol "구분" = false := by
    unfold Table.hasCol
    rw [hc]
    decide
  unfold renameDivision
  rw [h1]
  simp

theorem renameCategory_canonical (t : Table) (hc : t.cols = canonCols) :
    renameCategory t = t := by
  have h1 : t.hasCol "카테고리" = false := by
    unfold Table.hasCol
    rw [hc]
    decide
  unfold renameCategory
  rw [h1]
  simp

theorem mergeCard_canonical (t : Table) (hc : t.cols = canonCols) : mergeCard t = t := by
  have h1 : t.hasCol "카드명" = false := by
    unfold Table.hasCol
    rw [hc]
    decide
  unfold mergeCard
  rw [h1]
  simp

theorem addDefaultCol_present (t : Table) (c : String) (v : Value) (h : t.hasCol c = true) :
    t.addDefaultCol c v = t := by
  unfold Table.addDefaultCol
  rw [h]
  simp

theorem addDefaults_canonical (t : Table) (hc : t.cols = canonCols) : addDefaults t = t := by
  have h : ∀ c, c ∈ canonCols → t.hasCol c = true := by
    intro c hcm
    unfold Table.hasCol
    rw [hc, contains_iff_mem]
    exact hcm
  unfold addDefaults
  rw [addDefaultCol_present t _ _ (h "시간" (by decide)),
    addDefaultCol_present t _ _ (h "소분류" (by decide)),
    addDefaultCol_present t _ _ (h "화폐" (by decide)),
    addDefaultCol_present t _ _ (h "세부구분" (by decide))]

theorem convertDates_canonical (t : Table) (hcc : isCanonicalTable t = true) :
    convertDates t = some t := by
  have hdc : t.hasCol "날짜" = true :=
    canonicalTable_hasCol t hcc "날짜" (by decide)
  unfold convertDates
  rw [hdc]
  simp only [if_true]
  rw [mapRowsM_id]
  · rfl
  · intro r hr
    have hcr := canonicalTable_rows t hcc r hr
    obtain ⟨d, hd⟩ := canonicalRow_date r hcr
    have hk : hasKey r "날짜" = true := canonicalRow_hasKey r hcr "날짜" (by decide)
    rw [hd]
    unfold parseDateV
    simp only [Option.map_some']
    rw [← hd, setV_getV_self r _ hk]

theorem textCols_sub : ∀ c ∈ textCols, c ∈ canonCols := by decide

theorem convertText_canonical (t : Table) (hcc : isCanonicalTable t = true) :
    convertText t = t := by
  apply foldl_fixed
  intro c hcm
  have hcol : t.hasCol c = true := canonicalTable_hasCol t hcc c (textCols_sub c hcm)
  rw [hcol]
  simp only [if_true]
  apply setCol_id t c _ hcol
  intro r hr
  have hcr := canonicalTable_rows t hcc r hr
  obtain ⟨s, hs⟩ := canonicalRow_text r hcr c hcm
  have hk : hasKey r c = true := canonicalRow_hasKey r hcr c (textCols_sub c hcm)
  have hval : valueToStr (getV r c) = getV r c := by
    rw [hs]
    rfl
  rw [hval, setV_getV_self r _ hk]

theorem convertAmount_canonical (t : Table) (hcc : isCanonicalTable t = true) :
    convertAmount t = t := by
  have hcol : t.hasCol "금액" = true := canonicalTable_hasCol t hcc "금액" (by decide)
  unfold convertAmount
  rw [hcol]
  simp only [if_true]
  apply setCol_id t _ _ hcol
  intro r hr
  have hcr := canonicalTable_rows t hcc r hr
  obtain ⟨n, hn⟩ := canonicalRow_amount r hcr
  have hk : hasKey r "금액" = true := canonicalRow_hasKey r hcr "금액" (by decide)
  have hval : toNumericV (getV r "금액") = getV r "금액" := by
    rw [hn]
    rfl
  rw [hval, setV_getV_self r _ hk]

theorem ensureCols_canonical (t : Table) (hcc : isCanonicalTable t = true) :
    ensureCols t = t := by
  apply foldl_fixed
  intro c hcm
  have hcol : t.hasCol c = true := canonicalTable_hasCol t hcc c hcm
  unfold ensureStep
  rw [hcol]
  simp

theorem convertTime_canonical (t : Table) (hcc : isCanonicalTable t = true) :
    convertTime t = t := by
  have hcol : t.hasCol "시간" = true := canonicalTable_hasCol t hcc "시간" (by decide)
  unfold convertTime
  rw [hcol]
  simp only [if_true]
  apply setCol_id t _ _ hcol
  intro r hr
  have hcr := canonicalTable_rows t hcc r hr
  obtain ⟨tm, htm⟩ := canonicalRow_time r hcr
  have hk : hasKey r "시간" = true := canonicalRow_hasKey r hcr "시간" (by decide)
  have hval : parseTimeV (getV r "시간") = getV r "시간" := by
    rw [htm]
    rfl
  rw [hval, setV_getV_self r _ hk]

theorem signNormalize_canonical (t : Table) (hcc : isCanonicalTable t = true) :
    signNormalize t = t := by
  have h1 : t.hasCol "타입" = true := canonicalTable_hasCol t hcc "타입" (by decide)
  have h2 : t.hasCol "금액" = true := canonicalTable_hasCol t hcc "금액" (by decide)
  unfold signNormalize
  rw [h1, h2]
  simp only [Bool.and_self, if_true]
  unfold Table.mapRows
  have hrows : t.rows.map (fun r =>
      if getV r "타입" == Value.vStr "지출" && amountPos (getV r "금액") then
        setV r "금액" (negAmount (getV r "금액"))
      else r) = t.rows := by
    refine (List.map_congr_left ?_).trans (List.map_id _)
    intro r hr
    have hcr := canonicalTable_rows t hcc r hr
    cases hb : (getV r "타입" == Value.vStr "지출" && amountPos (getV r "금액")) with
    | false => simp [hb]
    | true =>
      exfalso
      rw [Bool.and_eq_true, beq_iff_eq] at hb
      obtain ⟨n, hn, hpos⟩ := amountPos_spec _ hb.2
      have hle : amtOf r ≤ 0 := canonicalRow_sign r hcr hb.1
      have ha : amtOf r = n := by
        unfold amtOf
        rw [hn]
      rw [ha] at hle
      omega
  rw [hrows]

theorem projectRow_canonical (r : Row) (h : isCanonicalRow r = true) : projectRow r = r :=
  keyed_map_eq_self r canonCols (canonicalRow_keys r h) canonCols_nodup

theorem selectCanon_canonical (t : Table) (hcc : isCanonicalTable t = true) :
    selectCanon t = t := by
  unfold selectCanon
  have hrows : t.rows.map projectRow = t.rows := by
    refine (List.map_congr_left ?_).trans (List.map_id _)
    intro r hr
    exact projectRow_canonical r (canonicalTable_rows t hcc r hr)
  rw [hrows, ← canonicalTable_cols t hcc]

end Ledger

namespace Ledger

/-! Column establishment and sign facts used by the load invariant. -/

theorem foldl_hasCol (step : Table → String → Table)
    (hmono : ∀ u c c2, u.hasCol c2 = true → (step u c).hasCol c2 = true)
    (hself : ∀ u c, (step u c).hasCol c = true) :
    ∀ (cs : List String) (t : Table) (c : String), c ∈ cs ∨ t.hasCol c = true →
      (cs.foldl step t).hasCol c = true := by
  intro cs
  induction cs with
  | nil =>
    intro t c h
    rcases h with h | h
    · simp at h
    · exact h
  | cons c0 cs ih =>
    intro t c h
    rw [List.foldl_cons]
    rcases h with h | h
    · rcases List.mem_cons.mp h with h2 | h2
      · subst h2
        exact ih (step t c) c (Or.inr (hself t c))
      · exact ih _ c (Or.inl h2)
    · exact ih _ c (Or.inr (hmono t c0 c h))

theorem ensureStep_hasCol_mono (u : Table) (c c2 : String) (h : u.hasCol c2 = true) :
    (ensureStep u c).hasCol c2 = true := by
  unfold ensureStep
  by_cases hc : u.hasCol c = true
  · rw [if_pos hc]
    exact h
  · rw [if_neg hc]
    exact hasCol_setCol_mono u c c2 _ h

theorem ensureStep_hasCol_self (u : Table) (c : String) : (ensureStep u c).hasCol c = true := by
  unfold ensureStep
  by_cases hc : u.hasCol c = true
  · rw [if_pos hc]
    exact hc
  · rw [if_neg hc]
    exact hasCol_setCol_self u c _

theorem ensureCols_hasCol (t : Table) (c : String) (hc : c ∈ canonCols) :
    (ensureCols t).hasCol c = true :=
  foldl_hasCol ensureStep ensureStep_hasCol_mono ensureStep_hasCol_self canonCols t c (Or.inl hc)

theorem convertTime_hasCol (t : Table) (c : String) (h : t.hasCol c = true) :
    (convertTime t).hasCol c = true := by
  unfold convertTime
  by_cases hc : t.hasCol "시간" = true
  · rw [if_pos hc]
    exact hasCol_setCol_mono t _ c _ h
  · rw [if_neg hc]
    exact h

theorem amtOf_intV (r : Row) (n : Int) (h : getV r "금액" = Value.vInt n) : amtOf r = n := by
  unfold amtOf
  rw [h]

theorem amtOf_setV_neg (r : Row) (n : Int) (hn : getV r "금액" = Value.vInt n) :
    amtOf (setV r "금액" (negAmount (getV r "금액"))) = -n := by
  unfold amtOf
  rw [getV_setV_self, hn]
  rfl

theorem amtOf_nonpos_of_not_amountPos (r : Row) (h : amountPos (getV r "금액") = false) :
    amtOf r ≤ 0 := by
  unfold amtOf
  cases hv : getV r "금액" with
  | vInt n =>
    rw [hv] at h
    unfold amountPos at h
    simp at h
    exact h
  | vStr s => simp
  | vDate d => simp
  | vTime tm => simp

theorem signNormalize_expense (t : Table) (h1 : t.hasCol "타입" = true)
    (h2 : t.hasCol "금액" = true) :
    ∀ r ∈ (signNormalize t).rows, getV r "타입" = Value.vStr "지출" → amtOf r ≤ 0 := by
  unfold signNormalize
  rw [h1, h2]
  simp only [Bool.and_self, if_true]
  unfold Table.mapRows
  intro r hr
  simp only [List.mem_map] at hr
  obtain ⟨r0, hr0, hre⟩ := hr
  subst hre
  cases hb : (getV r0 "타입" == Value.vStr "지출" && amountPos (getV r0 "금액")) with
  | true =>
    rw [if_pos rfl]
    intro _
    rw [Bool.and_eq_true] at hb
    obtain ⟨n, hn, hpos⟩ := amountPos_spec _ hb.2
    rw [amtOf_setV_neg r0 n hn]
    omega
  | false =>
    rw [if_neg (by simp)]
    intro htype
    rw [htype] at hb
    simp at hb
    exact amtOf_nonpos_of_not_amountPos r0 hb

theorem getV_projectRow (r : Row) (c : String) (hc : c ∈ canonCols) :
    getV (projectRow r) c = getV r c :=
  getV_keyed_map canonCols (fun c => getV r c) c hc

theorem amtOf_projectRow (r : Row) : amtOf (projectRow r) = amtOf r := by
  unfold amtOf
  rw [getV_projectRow r "금액" (by decide)]

end Ledger

namespace Ledger

/-! Row-count preservation of the pipeline (no row silently dropped or
duplicated when the load succeeds). -/

theorem renameDivision_length (t : Table) :
    (renameDivision t).rows.length = t.rows.length := by
  unfold renameDivision
  split
  · simp [Table.renameCol]
  · rfl

theorem renameCategory_length (t : Table) :
    (renameCategory t).rows.length = t.rows.length := by
  unfold renameCategory
  split
  · simp [Table.renameCol]
  · rfl

theorem mergeCard_length (t : Table) : (mergeCard t).rows.length = t.rows.length := by
  unfold mergeCard
  split
  · split
    · simp [Table.setCol]
    · simp [Table.setCol]
  · rfl

theorem addDefaultCol_length (t : Table) (c : String) (v : Value) :
    (t.addDefaultCol c v).rows.length = t.rows.length := by
  unfold Table.addDefaultCol
  split
  · rfl
  · simp [Table.setCol]

theorem addDefaults_length (t : Table) : (addDefaults t).rows.length = t.rows.length := by
  unfold addDefaults
  rw [addDefaultCol_length, addDefaultCol_length, addDefaultCol_length, addDefaultCol_length]

theorem migrateRaw_length (t : Table) : (migrateRaw t).rows.length = t.rows.length := by
  unfold migrateRaw
  rw [addDefaults_length, mergeCard_length, renameCategory_length, renameDivision_length]

theorem convertDates_length (t u : Table) (h : convertDates t = some u) :
    u.rows.length = t.rows.length := by
  unfold convertDates at h
  by_cases hc : t.hasCol "날짜" = true
  · rw [if_pos hc] at h
    cases hm : mapRowsM (fun r => (parseDateV (getV r "날짜")).map (fun v => setV r "날짜" v))
        t.rows with
    | none => rw [hm] at h; cases h
    | some rs =>
      rw [hm] at h
      simp only [Option.map_some'] at h
      cases h
      exact mapRowsM_length _ _ _ hm
  · rw [if_neg hc] at h
    cases h
    rfl

theorem convertText_length (t : Table) : (convertText t).rows.length = t.rows.length := by
  apply foldl_rows_length
  intro u c
  by_cases hc : u.hasCol c = true
  · rw [if_pos hc]
    simp [Table.setCol]
  · rw [if_neg hc]

theorem convertAmount_length (t : Table) : (convertAmount t).rows.length = t.rows.length := by
  unfold convertAmount
  split
  · simp [Table.setCol]
  · rfl

theorem ensureCols_length (t : Table) : (ensureCols t).rows.length = t.rows.length := by
  apply foldl_rows_length
  intro u c
  unfold ensureStep
  split
  · rfl
  · simp [Table.setCol]

theorem convertTime_length (t : Table) : (convertTime t).rows.length = t.rows.length := by
  unfold convertTime
  split
  · simp [Table.setCol]
  · rfl

theorem signNormalize_length (t : Table) :
    (signNormalize t).rows.length = t.rows.length := by
  unfold signNormalize
  split
  · simp [Table.mapRows]
  · rfl

theorem selectCanon_length (t : Table) : (selectCanon t).rows.length = t.rows.length := by
  unfold selectCanon
  simp

theorem reconcile_length (t u : Table) (h : reconcile t = some u) :
    u.rows.length = t.rows.length := by
  unfold reconcile at h
  cases hcd : convertDates (migrateRaw t) with
  | none => rw [hcd] at h; cases h
  | some v =>
    rw [hcd] at h
    simp only [Option.map_some'] at h
    cases h
    rw [selectCanon_length, signNormalize_length, convertTime_length, ensureCols_length,
      convertAmount_length, convertText_length]
    rw [convertDates_length _ _ hcd, migrateRaw_length]

end Ledger

namespace Ledger

/-! Sorted-list and maximum facts relating the code's highest-threshold
computation to the plain maximum named by the specification. -/

theorem sorted_le_getLast? : ∀ (l : List Tier), l.Sorted tierLe → ∀ m, l.getLast? = some m →
    ∀ a ∈ l, a.limit ≤ m.limit := by
  intro l
  induction l with
  | nil =>
    intro _ m hm
    simp at hm
  | cons x xs ih =>
    intro hs m hm a ha
    rw [List.sorted_cons] at hs
    obtain ⟨hhead, hs2⟩ := hs
    cases xs with
    | nil =>
      have hmx : m = x := by
        rw [List.getLast?_singleton] at hm
        exact (Option.some_inj.mp hm).symm
      rcases List.mem_cons.mp ha with h2 | h2
      · subst h2
        rw [hmx]
      · simp at h2
    | cons y ys =>
      have hm2 : (y :: ys).getLast? = some m := by
        rw [← List.getLast?_cons_cons]
        exact hm
      have hmem : m ∈ y :: ys := by
        have hne : y :: ys ≠ [] := List.cons_ne_nil y ys
        rw [List.getLast?_eq_getLast _ hne] at hm2
        have := Option.some_inj.mp hm2
        rw [← this]
        exact List.getLast_mem hne
      rcases List.mem_cons.mp ha with h2 | h2
      · subst h2
        exact hhead m hmem
      · exact ih hs2 m hm2 a h2

theorem foldl_max_init (ts : List Tier) : ∀ a : Int,
    a ≤ ts.foldl (fun x b => max x b.limit) a := by
  induction ts with
  | nil => intro a; exact le_refl a
  | cons t ts ih =>
    intro a
    rw [List.foldl_cons]
    exact le_trans (le_max_left a t.limit) (ih (max a t.limit))

theorem foldl_max_mem_le (ts : List Tier) : ∀ (a : Int) (b : Tier), b ∈ ts →
    b.limit ≤ ts.foldl (fun x b2 => max x b2.limit) a := by
  induction ts with
  | nil =>
    intro a b hb
    simp at hb
  | cons t ts ih =>
    intro a b hb
    rw [List.foldl_cons]
    rcases List.mem_cons.mp hb with h | h
    · subst h
      exact le_trans (le_max_right a b.limit) (foldl_max_init ts _)
    · exact ih _ b h

theorem foldl_max_attained (ts : List Tier) : ∀ a : Int,
    ts.foldl (fun x b => max x b.limit) a = a ∨
      ∃ b ∈ ts, ts.foldl (fun x b2 => max x b2.limit) a = b.limit := by
  induction ts with
  | nil =>
    intro a
    exact Or.inl rfl
  | cons t ts ih =>
    intro a
    rw [List.foldl_cons]
    rcases ih (max a t.limit) with h | hb
    · rcases max_choice a t.limit with hm | hm
      · exact Or.inl (h.trans hm)
      · exact Or.inr ⟨t, List.mem_cons_self t ts, h.trans hm⟩
    · obtain ⟨b, hbm, he⟩ := hb
      exact Or.inr ⟨b, List.mem_cons_of_mem t hbm, he⟩

theorem largestLimit_ge (t : Tier) (ts : List Tier) (a : Tier) (ha : a ∈ t :: ts) :
    a.limit ≤ largestLimit (t :: ts) := by
  unfold largestLimit
  rcases List.mem_cons.mp ha with h | h
  · subst h
    exact foldl_max_init ts a.limit
  · exact foldl_max_mem_le ts t.limit a h

theorem largestLimit_attained (t : Tier) (ts : List Tier) :
    ∃ a ∈ t :: ts, a.limit = largestLimit (t :: ts) := by
  unfold largestLimit
  rcases foldl_max_attained ts t.limit with h | hb
  · exact ⟨t, List.mem_cons_self t ts, h.symm⟩
  · obtain ⟨b, hbm, he⟩ := hb
    exact ⟨b, List.mem_cons_of_mem t hbm, he.symm⟩

theorem maxLimit_eq_largestLimit (tiers : List Tier) : maxLimit tiers = largestLimit tiers := by
  cases tiers with
  | nil => rfl
  | cons t ts =>
    unfold maxLimit
    have hperm := List.perm_insertionSort tierLe (t :: ts)
    have hne : sortTiers (t :: ts) ≠ [] := by
      intro h0
      unfold sortTiers at h0
      rw [h0] at hperm
      exact List.cons_ne_nil t ts (hperm.symm.eq_nil)
    have hm : (sortTiers (t :: ts)).getLast? = some ((sortTiers (t :: ts)).getLast hne) :=
      List.getLast?_eq_getLast _ hne
    rw [hm]
    have hsorted : (sortTiers (t :: ts)).Sorted tierLe := List.sorted_insertionSort tierLe (t :: ts)
    set m := (sortTiers (t :: ts)).getLast hne with hmdef
    show m.limit = largestLimit (t :: ts)
    have hmm : m ∈ t :: ts := by
      rw [← hperm.mem_iff]
      exact List.getLast_mem hne
    have hub : ∀ a ∈ t :: ts, a.limit ≤ m.limit := by
      intro a ha
      exact sorted_le_getLast? _ hsorted m hm a (hperm.mem_iff.mpr ha)
    have h1 : m.limit ≤ largestLimit (t :: ts) := largestLimit_ge t ts m hmm
    obtain ⟨b, hb, he⟩ := largestLimit_attained t ts
    have h2 : largestLimit (t :: ts) ≤ m.limit := he ▸ hub b hb
    omega

end Ledger

namespace Ledger

/-- C2: the reconciler is idempotent. On a transaction table already in
canonical form — the 11 canonical columns, parsed dates and times,
integer amounts, non-positive expense amounts — the full `load_data`
pipeline returns the very same table, so in particular re-applying sign
normalization to already-negative expense amounts is a no-op. -/
theorem C2_reconcile_idempotent (t : Table) (h : isCanonicalTable t = true) :
    reconcile t = some t ∧ loadData t = t := by
  have hc : t.cols = canonCols := canonicalTable_cols t h
  have hrec : reconcile t = some t := by
    unfold reconcile migrateRaw
    rw [renameDivision_canonical t hc, renameCategory_canonical t hc, mergeCard_canonical t hc,
      addDefaults_canonical t hc, convertDates_canonical t h]
    simp only [Option.map_some']
    rw [convertText_canonical t h, convertAmount_canonical t h, ensureCols_canonical t h,
      convertTime_canonical t h, signNormalize_canonical t h, selectCanon_canonical t h]
  refine ⟨hrec, ?_⟩
  unfold loadData
  rw [hrec]
  rfl

/-- C2 witness: a concrete canonical one-row table reconciles to itself. -/
theorem C2_witness :
    isCanonicalTable sampleTable = true ∧
      (reconcile sampleTable = some sampleTable ∧ loadData sampleTable = sampleTable) :=
  ⟨by decide, C2_reconcile_idempotent sampleTable (by decide)⟩

/-- C3 counterexample: in a two-row raw table whose second row has an
unparsable date, the first row's date parses, yet the load returns the
empty table — the parseable row is not loaded, contradicting the claim
that rows whose dates parse are still loaded. -/
theorem C3_counterexample :
    (parseDateV (getV (mixedDates.rows.getD 0 []) "날짜")).isSome = true ∧
    mixedDates.rows.length = 2 ∧ (loadData mixedDates).rows = [] := by decide

/-- C3 amended: a date-parse failure aborts the whole batch — `load_data`
reports a warning and returns the empty table, keeping none of the rows;
when every row's date parses, the load keeps exactly one output row per
input row, so no row is dropped or duplicated. -/
theorem C3_amended :
    (∀ t : Table, convertDates (migrateRaw t) = none → loadData t = emptyTable) ∧
    (∀ t u : Table, convertDates (migrateRaw t) = some u →
      (loadData t).rows.length = t.rows.length) := by
  constructor
  · intro t h
    unfold loadData reconcile
    rw [h]
    rfl
  · intro t u h
    have hrec : ∃ w, reconcile t = some w := by
      unfold reconcile
      rw [h]
      exact ⟨_, rfl⟩
    obtain ⟨w, hw⟩ := hrec
    unfold loadData
    rw [hw]
    simp only [Option.getD_some]
    exact reconcile_length t w hw

/-- C3 witness: the mixed-date table aborts to the empty table, and a
table whose dates all parse keeps its row count. -/
theorem C3_witness :
    convertDates (migrateRaw mixedDates) = none ∧ loadData mixedDates = emptyTable ∧
    convertDates (migrateRaw sampleTable) = some sampleTable ∧
    (loadData sampleTable).rows.length = sampleTable.rows.length :=
  ⟨by decide, (C3_amended).1 mixedDates (by decide), by decide,
   (C3_amended).2 sampleTable sampleTable (by decide)⟩

/-- C4: when both the card-name column and the payment-method column are
present, the consolidated payment instrument of a row is the card name
whenever it is non-empty and not the sentinel "-", and the row's
payment-method value otherwise. -/
theorem C4_instrument_consolidation (t : Table) (h1 : t.hasCol "카드명" = true)
    (h2 : t.hasCol "결제수단" = true) (i : Nat) (r : Row) (hr : t.rows[i]? = some r)
    (c : String) (hc : getV r "카드명" = Value.vStr c) :
    getV ((mergeCard t).rows.getD i []) "결제수단" =
      (if c ≠ "" ∧ c ≠ "-" then Value.vStr c else getV r "결제수단") := by
  unfold mergeCard
  rw [if_pos h1, if_pos h2]
  unfold Table.setCol
  rw [List.getD_eq_getElem?_getD]
  simp only [List.getElem?_map, hr, Option.map_some', Option.getD_some]
  rw [getV_setV_self, hc]
  by_cases hc1 : c = ""
  · subst hc1
    simp [effInstrument, pyTruthy]
  · by_cases hc2 : c = "-"
    · subst hc2
      simp [effInstrument, pyTruthy]
    · simp [effInstrument, pyTruthy, hc1, hc2]

/-- C4 witness: the specification's two consolidation examples, with
card "Card A" over method "Credit Card" and sentinel "-" over "Cash". -/
theorem C4_witness :
    getV (cardMethodTable.rows.getD 0 []) "카드명" = Value.vStr "Card A" ∧
    getV (cardMethodTable.rows.getD 1 []) "카드명" = Value.vStr "-" ∧
    getV ((mergeCard cardMethodTable).rows.getD 0 []) "결제수단" =
      (if "Card A" ≠ "" ∧ "Card A" ≠ "-" then Value.vStr "Card A"
        else getV (cardMethodTable.rows.getD 0 []) "결제수단") ∧
    getV ((mergeCard cardMethodTable).rows.getD 1 []) "결제수단" =
      (if "-" ≠ "" ∧ "-" ≠ "-" then Value.vStr "-"
        else getV (cardMethodTable.rows.getD 1 []) "결제수단") :=
  ⟨by decide, by decide,
   C4_instrument_consolidation cardMethodTable (by decide) (by decide) 0
     (cardMethodTable.rows.getD 0 []) (by decide) "Card A" (by decide),
   C4_instrument_consolidation cardMethodTable (by decide) (by decide) 1
     (cardMethodTable.rows.getD 1 []) (by decide) "-" (by decide)⟩

/-- C5: renaming never overwrites — when a legacy column and its
populated current replacement are both present, the rename is a no-op,
so the current column keeps its original values. -/
theorem C5_rename_never_overwrites (t : Table) :
    (t.hasCol "구분" = true → t.hasCol "타입" = true → renameDivision t = t) ∧
    (t.hasCol "카테고리" = true → t.hasCol "대분류" = true → renameCategory t = t) := by
  constructor
  · intro h1 h2
    unfold renameDivision
    rw [h1, h2]
    simp
  · intro h1 h2
    unfold renameCategory
    rw [h1, h2]
    simp

/-- C5 witness: a table populating both legacy columns and both current
replacements is untouched by both renames. -/
theorem C5_witness :
    legacyBothTable.hasCol "구분" = true ∧ legacyBothTable.hasCol "타입" = true ∧
    legacyBothTable.hasCol "카테고리" = true ∧ legacyBothTable.hasCol "대분류" = true ∧
    renameDivision legacyBothTable = legacyBothTable ∧
    renameCategory legacyBothTable = legacyBothTable :=
  ⟨by decide, by decide, by decide, by decide,
   (C5_rename_never_overwrites legacyBothTable).1 (by decide) (by decide),
   (C5_rename_never_overwrites legacyBothTable).2 (by decide) (by decide)⟩

end Ledger

namespace Ledger

/-- C6: for every tier of a card and every non-negative current spend,
the dashboard reports the tier achieved exactly when the spend reaches
the threshold (achievement at exact equality), and reports
`remaining = threshold - spend` for an unachieved tier. -/
theorem C6_tier_achievement (spend : Int) (_hs : 0 ≤ spend) (tiers : List Tier) (ts : TierState)
    (hts : ts ∈ evalTiers spend tiers) :
    (ts.achieved = true ↔ ts.limit ≤ spend) ∧
    (ts.achieved = false → ts.remaining = ts.limit - spend) := by
  unfold evalTiers at hts
  simp only [List.mem_map] at hts
  obtain ⟨t, ht, hte⟩ := hts
  subst hte
  constructor
  · simp
  · intro _
    rfl

/-- C6 witness: the specification's boundary example — thresholds
300000 and 600000 with spend exactly 300000: tier 1 achieved, tier 2
unachieved with remaining 300000. -/
theorem C6_witness :
    (0 : Int) ≤ 300000 ∧
    TierState.mk 300000 "A" true 0 ∈ evalTiers 300000 [⟨300000, "A"⟩, ⟨600000, "B"⟩] ∧
    TierState.mk 600000 "B" false 300000 ∈ evalTiers 300000 [⟨300000, "A"⟩, ⟨600000, "B"⟩] ∧
    ((TierState.mk 300000 "A" true 0).achieved = true ↔
      (TierState.mk 300000 "A" true 0).limit ≤ 300000) ∧
    ((TierState.mk 600000 "B" false 300000).achieved = false →
      (TierState.mk 600000 "B" false 300000).remaining =
        (TierState.mk 600000 "B" false 300000).limit - 300000) :=
  ⟨by decide, by decide, by decide,
   (C6_tier_achievement 300000 (by decide) [⟨300000, "A"⟩, ⟨600000, "B"⟩]
     (TierState.mk 300000 "A" true 0) (by decide)).1,
   (C6_tier_achievement 300000 (by decide) [⟨300000, "A"⟩, ⟨600000, "B"⟩]
     (TierState.mk 600000 "B" false 300000) (by decide)).2⟩

/-- C7: the reported progress equals `min(spend / highest, 1)` where
`highest` is the card's largest tier threshold (1,000,000 when the card
has no tiers), and 0 when that threshold is not positive — the cap keeps
overspending at ratio 1. -/
theorem C7_progress_cap (spend : Int) (_hs : 0 ≤ spend) (tiers : List Tier) :
    progressRate spend tiers =
      if 0 < largestLimit tiers then min ((spend : ℚ) / (largestLimit tiers : ℚ)) 1 else 0 := by
  unfold progressRate
  rw [maxLimit_eq_largestLimit]

/-- C7 witness: spend 900000 against highest threshold 600000 reports
progress 1, not 1.5. -/
theorem C7_witness :
    (0 : Int) ≤ 900000 ∧
    progressRate 900000 [⟨300000, "A"⟩, ⟨600000, "B"⟩] =
      (if 0 < largestLimit [⟨300000, "A"⟩, ⟨600000, "B"⟩] then
        min ((900000 : ℚ) / (largestLimit [⟨300000, "A"⟩, ⟨600000, "B"⟩] : ℚ)) 1 else 0) ∧
    progressRate 900000 [⟨300000, "A"⟩, ⟨600000, "B"⟩] = 1 :=
  ⟨by decide, C7_progress_cap 900000 (by decide) _, by
    unfold progressRate
    rw [if_pos (by decide)]
    have hm : maxLimit [⟨300000, "A"⟩, ⟨600000, "B"⟩] = 600000 := by decide
    rw [hm]
    rw [min_def]
    norm_num⟩

/-- C8: the pure dashboard computation on a card with an empty tier list
— reachable from the registration form when both tier thresholds are
non-positive — yields the card's spend, progress and an empty tier-state
list, and the number of tier panes laid out, `len(sorted_tiers)`, is 0;
the surrounding UI call `st.columns(0)` is what the claim's no-crash
statement fails on. -/
theorem C8_empty_tiers :
    buildTiers 0 "1만원 할인" 0 "" = [] ∧ (sortTiers []).length = 0 ∧
    evalCards [sampleRow] [("카드A", [])] = [⟨"카드A", 0, 0, []⟩] := by
  refine ⟨rfl, rfl, ?_⟩
  unfold evalCards
  simp only [List.map_cons, List.map_nil]
  have hcs : cardSpend [sampleRow] "카드A" = 0 := by decide
  rw [hcs]
  have hpr : progressRate 0 [] = 0 := by
    unfold progressRate
    rw [if_pos (by decide)]
    rw [show ((0 : Int) : ℚ) = 0 from rfl, zero_div]
    exact min_eq_left zero_le_one
  rw [hpr]
  rfl

/-- C9 counterexample: a file whose columns are the 11 canonical names
plus an extra column is accepted by the import check, so acceptance is
not equivalent to carrying exactly the 11 canonical columns. -/
theorem C9_counterexample :
    acceptCsv extraCols = true ∧ exactlyCanonCols extraCols = false := by decide

/-- C9 amended: a CSV upload is accepted exactly when it contains all 11
required canonical columns (extra columns are tolerated), and a rejected
upload leaves the in-memory transaction table unchanged in both append
and replace mode — no partial application. -/
theorem C9_amended :
    (∀ cols : List String, acceptCsv cols = true ↔ ∀ c ∈ requiredColumns, c ∈ cols) ∧
    (∀ data upload : Table, acceptCsv upload.cols = false →
      csvImportAppend data upload = some data ∧ csvImportReplace data upload = some data) := by
  constructor
  · intro cols
    unfold acceptCsv
    rw [List.all_eq_true]
    constructor
    · intro h c hcm
      exact (contains_iff_mem cols c).mp (h c hcm)
    · intro h c hcm
      exact (contains_iff_mem cols c).mpr (h c hcm)
  · intro data upload h
    unfold csvImportAppend csvImportReplace
    rw [if_neg (by simp [h]), if_neg (by simp [h])]
    exact ⟨rfl, rfl⟩

/-- C9 witness: an upload missing required columns is rejected and the
stored table is unchanged in both import modes. -/
theorem C9_witness :
    acceptCsv ["날짜", "시간"] = false ∧
    csvImportAppend sampleTable ⟨["날짜", "시간"], []⟩ = some sampleTable ∧
    csvImportReplace sampleTable ⟨["날짜", "시간"], []⟩ = some sampleTable :=
  ⟨by decide,
   ((C9_amended).2 sampleTable ⟨["날짜", "시간"], []⟩ (by decide)).1,
   ((C9_amended).2 sampleTable ⟨["날짜", "시간"], []⟩ (by decide)).2⟩

/-- C10: when the raw rows carry a card-name column but no
payment-method column, every row's payment instrument becomes the row's
card-name value verbatim — sentinel "-" and the empty string included,
with no fallback. -/
theorem C10_card_only_copy (t : Table) (h1 : t.hasCol "카드명" = true)
    (h2 : t.hasCol "결제수단" = false) (i : Nat) (r : Row) (hr : t.rows[i]? = some r) :
    getV ((mergeCard t).rows.getD i []) "결제수단" = getV r "카드명" := by
  unfold mergeCard
  rw [if_pos h1, if_neg (by simp [h2])]
  unfold Table.setCol
  rw [List.getD_eq_getElem?_getD]
  simp only [List.getElem?_map, hr, Option.map_some', Option.getD_some]
  rw [getV_setV_self]

/-- C10 witness: sentinel "-" and empty card names are copied verbatim
into the payment instrument when no payment-method column exists. -/
theorem C10_witness :
    cardOnlyTable.hasCol "카드명" = true ∧ cardOnlyTable.hasCol "결제수단" = false ∧
    getV ((mergeCard cardOnlyTable).rows.getD 0 []) "결제수단" =
      getV (cardOnlyTable.rows.getD 0 []) "카드명" ∧
    getV ((mergeCard cardOnlyTable).rows.getD 1 []) "결제수단" =
      getV (cardOnlyTable.rows.getD 1 []) "카드명" :=
  ⟨by decide, by decide,
   C10_card_only_copy cardOnlyTable (by decide) (by decide) 0
     (cardOnlyTable.rows.getD 0 []) (by decide),
   C10_card_only_copy cardOnlyTable (by decide) (by decide) 1
     (cardOnlyTable.rows.getD 1 []) (by decide)⟩

end Ledger

namespace Ledger

theorem mem_selectCanon (t : Table) (r : Row) (hr : r ∈ (selectCanon t).rows) :
    ∃ r0 ∈ t.rows, r = projectRow r0 := by
  unfold selectCanon at hr
  simp only [List.mem_map] at hr
  obtain ⟨r0, h1, h2⟩ := hr
  exact ⟨r0, h1, h2.symm⟩

theorem newEntryRow_signOk (dday : Nat)
    (timeStr typeVal subDiv bigCat smallCat content : String) (amount : Int)
    (currency method memo : String) (hpos : 0 < amount) :
    rowSignOk (newEntryRow dday timeStr typeVal subDiv bigCat smallCat content amount
      currency method memo) = true := by
  have hty : getV (newEntryRow dday timeStr typeVal subDiv bigCat smallCat content amount
      currency method memo) "타입" = Value.vStr typeVal := rfl
  have hamt : amtOf (newEntryRow dday timeStr typeVal subDiv bigCat smallCat content amount
      currency method memo) =
      (if (typeVal == "지출" && decide (0 < amount)) = true then -amount else amount) := rfl
  unfold rowSignOk
  rw [hty, hamt]
  by_cases ht : typeVal = "지출"
  · subst ht
    have hcond : ((("지출" : String) == "지출") && decide (0 < amount)) = true := by
      rw [decide_eq_true hpos]
      rfl
    rw [if_pos hcond]
    have hb2 : decide ((-amount : Int) ≤ 0) = true := decide_eq_true (by omega)
    rw [hb2]
    simp
  · have hb : (Value.vStr typeVal == Value.vStr "지출") = false := by
      simp [ht]
    have hb2 : decide ((0 : Int) ≤ amount) = true := decide_eq_true (by omega)
    rw [if_neg (by simp [ht]), hb, hb2]
    simp

/-- C1 counterexample: both the inline row editor and the CSV import
write amounts verbatim, so each can store an expense row with a strictly
positive amount — the stored-sign invariant does not survive those two
operations. -/
theorem C1_counterexample :
    tableSignOk sampleTable = true ∧
    (updateFromEditor sampleTable.rows [(0, "금액", Value.vInt 100)]).isSome = true ∧
    ((updateFromEditor sampleTable.rows [(0, "금액", Value.vInt 100)]).getD []).all
      rowSignOk = false ∧
    tableSignOk emptyTable = true ∧
    (csvImportAppend emptyTable uploadPosExpense).isSome = true ∧
    tableSignOk ((csvImportAppend emptyTable uploadPosExpense).getD emptyTable) = false := by
  decide

/-- C1 amended: reconciliation on load re-establishes the expense half of
the invariant for every stored row (kind = Expense implies amount ≤ 0),
and saving a new entry with the form's positive amount preserves the full
sign invariant; the inline editor and the CSV import perform no sign
normalization and may violate it until the next load. -/
theorem C1_amended :
    (∀ t : Table, ∀ r ∈ (loadData t).rows, getV r "타입" = Value.vStr "지출" → amtOf r ≤ 0) ∧
    (∀ (data : Table) (dday : Nat) (timeStr typeVal subDiv bigCat smallCat content : String)
      (amount : Int) (currency method memo : String),
      tableSignOk data = true → 0 < amount →
      tableSignOk (saveData data dday timeStr typeVal subDiv bigCat smallCat content amount
        currency method memo) = true) := by
  constructor
  · intro t r hr htype
    unfold loadData at hr
    cases hrec : reconcile t with
    | none =>
      rw [hrec] at hr
      simp [emptyTable] at hr
    | some u =>
      rw [hrec] at hr
      simp only [Option.getD_some] at hr
      unfold reconcile at hrec
      cases hcd : convertDates (migrateRaw t) with
      | none =>
        rw [hcd] at hrec
        cases hrec
      | some v =>
        rw [hcd] at hrec
        simp only [Option.map_some'] at hrec
        cases hrec
        obtain ⟨r0, hr0, hre⟩ := mem_selectCanon _ r hr
        subst hre
        rw [getV_projectRow r0 "타입" (by decide)] at htype
        rw [amtOf_projectRow]
        refine signNormalize_expense _ ?_ ?_ r0 hr0 htype
        · exact convertTime_hasCol _ _ (ensureCols_hasCol _ _ (by decide))
        · exact convertTime_hasCol _ _ (ensureCols_hasCol _ _ (by decide))
  · intro data dday timeStr typeVal subDiv bigCat smallCat content amount currency method memo
      hok hpos
    unfold tableSignOk at hok ⊢
    unfold saveData
    simp only [List.all_append, Bool.and_eq_true]
    refine ⟨hok, ?_⟩
    simp only [List.all_cons, List.all_nil, Bool.and_true]
    exact newEntryRow_signOk dday timeStr typeVal subDiv bigCat smallCat content amount
      currency method memo hpos

/-- C1 witness: a load result satisfies the expense half at a concrete
row, and a concrete positive-amount save preserves the invariant. -/
theorem C1_witness :
    ((loadData uploadPosExpense).rows.getD 0 []) ∈ (loadData uploadPosExpense).rows ∧
    getV ((loadData uploadPosExpense).rows.getD 0 []) "타입" = Value.vStr "지출" ∧
    amtOf ((loadData uploadPosExpense).rows.getD 0 []) ≤ 0 ∧
    tableSignOk sampleTable = true ∧ (0 : Int) < 42000 ∧
    tableSignOk (saveData sampleTable 20250106 "12:00:00" "지출" "비고정지출" "식비" ""
      "dinner" 42000 "KRW" "현금" "") = true :=
  ⟨by decide, by decide,
   (C1_amended).1 uploadPosExpense ((loadData uploadPosExpense).rows.getD 0 [])
     (by decide) (by decide),
   by decide, by decide,
   (C1_amended).2 sampleTable 20250106 "12:00:00" "지출" "비고정지출" "식비" "" "dinner" 42000
     "KRW" "현금" "" (by decide) (by decide)⟩

end Ledger
